import Mathlib

/-!
Formal model of the repo-manager scan engine and cache reconciler.

The definitions below are a shallow embedding of the Rust sources:
 - `src-tauri/src/cache/cache_service.rs` (load/save, staleness, history cleanup)
 - `src-tauri/src/cache/models.rs` (cache data model)
 - `src-tauri/src/services/repository_service.rs` (scan orchestrator, classifier)
 - `src-tauri/src/adapters/*.rs` (git / filesystem / ignore adapters)
 - `src-tauri/src/commands/repository_commands.rs` (add-mode merge)

Filesystem paths are modelled as lists of components (`DirPath`); Rust's
`Path::parent` becomes `List.dropLast` and the descendant relation becomes the
strict prefix relation.  `HashMap`s are modelled as association lists together
with a `Nodup` hypothesis on the keys where key uniqueness matters.  External
adapter calls (git2, tokei, walkdir, the `ignore` walker, serde) are modelled
as oracle fields of an environment structure, with `Option`/`Except` encoding
their fallibility exactly where the Rust uses `Result`/`Option`.  Timestamps
are modelled as `Nat`, f64 sizes as `Rat`.
-/

/-- A filesystem directory path, as its list of components from the root. -/
abbrev DirPath := List String

/-- Association-list lookup, modelling `HashMap::get` on a map whose entries
are listed in iteration order. -/
def lookupKey {α β : Type} [DecidableEq α] (k : α) : List (α × β) → Option β
  | [] => none
  | e :: l => if e.1 = k then some e.2 else lookupKey k l

/-! ## Repository data model (`models/repository.rs`, re-exported by
`models/mod.rs`; field set as used by `repository_service.rs` and the cache).
-/

/-- Repository status (`RepoStatus` in the source): one of Clean, Dirty,
Untracked, NoGit. -/
inductive RepoStatus where
  | Clean
  | Dirty
  | Untracked
  | NoGit
deriving DecidableEq, Repr

/-- One classified directory (`Repository` in the source).  Timestamps are
`Nat`, the f64 `size_mb` is `Rat`; `path` keeps the component-list model of
the canonical path string. -/
structure Repository where
  name : String
  path : DirPath
  is_git_repo : Bool
  has_uncommitted_changes : Bool
  current_branch : Option String
  remotes : List String
  last_commit_date : Option Nat
  last_activity : Option Nat
  status : RepoStatus
  size_mb : Rat
  commit_count : Option Nat
  primary_language : Option String
  total_lines : Nat
  code_lines : Nat
deriving DecidableEq

/-! ## Cache data model (`cache/models.rs`). -/

/-- Cache format version (`CACHE_VERSION` in `cache/models.rs`). -/
def CACHE_VERSION : String := "1.0.0"

/-- Cached repository entry (`CachedRepository` in `cache/models.rs`). -/
structure CachedRepository where
  repository : Repository
  cached_at : Nat
  git_head_sha : Option String
  last_modified : Option Nat
  is_stale : Bool
deriving DecidableEq

/-- Persisted cache record (`CacheData` in `cache/models.rs`).  The two
`HashMap`s become association lists in iteration order. -/
structure CacheData where
  version : String
  last_scan : Nat
  scanned_paths : List DirPath
  repositories : List (DirPath × CachedRepository)
  checksums : List (DirPath × String)
  total_repos : Nat
  total_git_repos : Nat
  total_size_mb : Rat
deriving DecidableEq

/-! ## Cache load (`cache_service.rs`, `load_cache`). -/

/-- State of the cache file on disk: missing, unreadable
(`fs::read_to_string` fails with the given error), or readable with the given
content. -/
inductive CacheFileState where
  | absent
  | unreadable (err : String)
  | content (s : String)
deriving DecidableEq

/-- Model of `load_cache`: returns `none` when no file exists; propagates read errors
(`fs::read_to_string(..)?`) and parse errors (`serde_json::from_str(..)?`);
a version mismatch is a cache miss (`Ok(None)`).  The serde parser is the
`parse` oracle. -/
def load_cache (parse : String → Except String CacheData) :
    CacheFileState → Except String (Option CacheData)
  | .absent => .ok none
  | .unreadable err => .error err
  | .content s =>
    match parse s with
    | .error e => .error e
    | .ok cache_data =>
      if cache_data.version ≠ CACHE_VERSION then .ok none
      else .ok (some cache_data)

/-! ## Cache save (`cache_service.rs`, `save_cache`). -/

/-- Filesystem side effects performed by `save_cache`, in order: the
historical backup copy, the primary `fs::write`, and the history cleanup. -/
inductive FsOp where
  | backup
  | writePrimary
  | cleanup
deriving DecidableEq

/-- Outcomes of the filesystem calls made by one `save_cache` invocation. -/
structure SaveEnv where
  cacheFileExists : Bool
  backupResult : Except String Unit
  writeResult : Except String Unit
  cleanupResult : Except String Unit

/-- The write-then-cleanup tail of `save_cache`. -/
def save_write_phase (env : SaveEnv) (trace : List FsOp) :
    Except String Unit × List FsOp :=
  match env.writeResult with
  | .error e => (.error e, trace ++ [.writePrimary])
  | .ok _ =>
    match env.cleanupResult with
    | .error e => (.error e, trace ++ [.writePrimary, .cleanup])
    | .ok _ => (.ok (), trace ++ [.writePrimary, .cleanup])

/-- Model of `save_cache`: when the cache file exists it first calls
`create_historical_backup().await?` — the `?` propagates a backup failure
before the primary write; only then does it write the new record and clean up
history.  The returned trace lists the operations that were attempted. -/
def save_cache (env : SaveEnv) : Except String Unit × List FsOp :=
  if env.cacheFileExists then
    match env.backupResult with
    | .error e => (.error e, [.backup])
    | .ok _ => save_write_phase env [.backup]
  else save_write_phase env []

/-! ## Staleness reconciler (`cache_service.rs`, `find_stale_repositories`). -/

/-- The per-cached-entry staleness test from the first loop of
`find_stale_repositories`. -/
def staleCheck (current_checksums : List (DirPath × String))
    (e : DirPath × CachedRepository) : Option DirPath :=
  match lookupKey e.1 current_checksums with
  | some current_checksum =>
    match e.2.git_head_sha with
    | some cached_checksum =>
      if cached_checksum ≠ current_checksum then some e.1 else none
    | none => some e.1
  | none => some e.1

/-- Model of `find_stale_repositories`: first loop pushes every cached path whose
checksum changed, is missing, or which vanished from the fresh set; second
loop pushes every fresh path that is not cached. -/
def find_stale_repositories (cache_data : CacheData)
    (current_checksums : List (DirPath × String)) : List DirPath :=
  cache_data.repositories.filterMap (staleCheck current_checksums) ++
    current_checksums.filterMap (fun e =>
      if (lookupKey e.1 cache_data.repositories).isNone then some e.1 else none)

/-! ## History cleanup (`cache_service.rs`, `cleanup_historical_files`). -/

/-- One file of the `history/` directory: name, extension, and modification
time when readable (`metadata().modified()`, defaulting to `UNIX_EPOCH`). -/
structure HistFile where
  name : String
  ext : Option String
  mtime : Option Nat
deriving DecidableEq

/-- Sort key used by the cleanup: the modification time, with unreadable
metadata treated as `UNIX_EPOCH` (`unwrap_or(SystemTime::UNIX_EPOCH)`). -/
def mtimeKey (f : HistFile) : Nat := f.mtime.getD 0

/-- The `.json` files of the history directory, sorted newest first
(stable sort by modification time, then `reverse`). -/
def cleanup_sorted (files : List HistFile) : List HistFile :=
  ((files.filter (fun f => f.ext == some "json")).mergeSort
      (fun a b => decide (mtimeKey a ≤ mtimeKey b))).reverse

/-- The files surviving `cleanup_historical_files`: the first
`max_files = 10` of the newest-first order. -/
def cleanup_kept (files : List HistFile) : List HistFile :=
  (cleanup_sorted files).take 10

/-- The files removed by `cleanup_historical_files`: those beyond the cap,
`files.iter().skip(max_files)` of the newest-first order. -/
def cleanup_removed (files : List HistFile) : List HistFile :=
  if (cleanup_sorted files).length > 10 then (cleanup_sorted files).drop 10
  else []

/-- One save as seen by the history directory (all of whose files are
`repositories_<timestamp>.json` backups): the backup copy appends one file
and `cleanup_historical_files` then prunes. -/
def save_backup_step (hist : List HistFile) (f : HistFile) : List HistFile :=
  cleanup_kept (hist ++ [f])

/-! ## Add-mode merge (`commands/repository_commands.rs`, `scan_repositories`). -/

/-- Model of `extract_repositories`: the repositories stored in the cache record, in
map iteration order. -/
def extract_repositories (cache_data : CacheData) : List Repository :=
  cache_data.repositories.map (fun e => e.2.repository)

/-- The incoming loop of the add-mode merge: each incoming repository is
appended unless its path is already in the seen set, which then grows. -/
def merge_add_loop (seen : List DirPath) : List Repository → List Repository
  | [] => []
  | r :: rs =>
    if r.path ∈ seen then merge_add_loop seen rs
    else r :: merge_add_loop (r.path :: seen) rs

/-- Add-mode repository merge: existing entries first, then the incoming
entries whose path is new (`existing_paths` starts as the existing paths). -/
def merge_repositories_add (existing incoming : List Repository) :
    List Repository :=
  existing ++ merge_add_loop (existing.map (fun r => r.path)) incoming

/-- Add-mode scanned-paths merge: `vec![path]` extended with the existing
record's `scanned_paths`. -/
def merge_scanned_paths (scan_root : DirPath) (existing : List DirPath) :
    List DirPath :=
  scan_root :: existing

/-! ## Git adapter (`adapters/git_adapter.rs`). -/

/-- The git2 status flags of one working-tree entry, as queried by
`get_status`. -/
structure StatusEntry where
  path : String
  index_new : Bool
  index_modified : Bool
  index_deleted : Bool
  index_renamed : Bool
  index_typechange : Bool
  wt_modified : Bool
  wt_deleted : Bool
  wt_renamed : Bool
  wt_typechange : Bool
  wt_new : Bool
deriving DecidableEq

/-- Raw repository state read from git2 when `Repository::open` and
`repo.statuses` succeed: the status entries plus branch information. -/
structure RawRepoState where
  entries : List StatusEntry
  current_branch : Option String
  tracking_branch : Option String
deriving DecidableEq

/-- Result of `GitAdapter::get_status` (`GitStatus` in the source). -/
structure GitStatus where
  is_clean : Bool
  staged_files : List String
  unstaged_files : List String
  untracked_files : List String
  ahead : Nat
  behind : Nat
  current_branch : Option String
  tracking_branch : Option String
deriving DecidableEq

/-- Model of `GitAdapter::get_status` on a successfully opened repository: an entry is
staged when any index flag is set, unstaged when any working-tree change flag
is set, untracked when `wt_new`; `is_clean` iff all three lists are empty;
ahead/behind are hardcoded to zero. -/
def get_status (raw : RawRepoState) : GitStatus :=
  let staged_files := raw.entries.filterMap (fun e =>
    if e.index_new || e.index_modified || e.index_deleted ||
        e.index_renamed || e.index_typechange
    then some e.path else none)
  let unstaged_files := raw.entries.filterMap (fun e =>
    if e.wt_modified || e.wt_deleted || e.wt_renamed || e.wt_typechange
    then some e.path else none)
  let untracked_files := raw.entries.filterMap (fun e =>
    if e.wt_new then some e.path else none)
  { is_clean := staged_files.isEmpty && unstaged_files.isEmpty &&
      untracked_files.isEmpty,
    staged_files := staged_files,
    unstaged_files := unstaged_files,
    untracked_files := untracked_files,
    ahead := 0, behind := 0,
    current_branch := raw.current_branch,
    tracking_branch := raw.tracking_branch }

/-- One git remote (`RemoteInfo` in the source). -/
structure RemoteInfo where
  name : String
  url : String
  fetch_url : Option String
  push_url : Option String
deriving DecidableEq

/-! ## Ignore adapter (`adapters/ignore_adapter.rs`). -/

/-- The deny-list of noise directory names from `should_skip_directory`. -/
def skip_dir_names : List String :=
  ["node_modules", "vendor", "target", "dist", "build", "out",
   "src", "lib", "libs", "components", "utils", "helpers",
   "tests", "test", "__tests__", "spec", "specs",
   "cache", ".cache", "tmp", "temp", "logs",
   "System Volume Information", "$RECYCLE.BIN", "Thumbs.db",
   ".Trash", ".DS_Store"]

/-- Test of `starts_with(c)` on the first character of a name. -/
def startsWithChar (s : String) (c : Char) : Bool :=
  s.data.head? == some c

/-- ASCII lowercasing of one character (`to_lowercase`; the deny-list is
ASCII, on which Rust's Unicode lowercasing agrees with this). -/
def lowerChar (c : Char) : Char :=
  if 65 ≤ c.toNat ∧ c.toNat ≤ 90 then Char.ofNat (c.toNat + 32) else c

/-- ASCII lowercasing of a name. -/
def lowerString (s : String) : String :=
  ⟨s.data.map lowerChar⟩

/-- Model of `IgnoreAdapter::should_skip_directory`: skip hidden names, npm scope
directories, and the case-insensitive deny-list. -/
def should_skip_directory (dir_path : DirPath) : Bool :=
  let dir_name := dir_path.getLast?.getD ""
  if startsWithChar dir_name '.' then true
  else if startsWithChar dir_name '@' then true
  else
    let dir_name_lower := lowerString dir_name
    skip_dir_names.any (fun skip => dir_name_lower == lowerString skip)

/-! ## Filesystem adapter (`adapters/filesystem_adapter.rs`). -/

/-- The fixed marker-file list of `has_project_indicators`. -/
def project_files : List String :=
  ["package.json", "Cargo.toml", "pyproject.toml", "pom.xml",
   "go.mod", "Makefile", "Dockerfile", "README.md"]

/-! ## Scan orchestrator and classifier (`services/repository_service.rs`). -/

/-- The external world as seen by one scan: the adapter calls, each a pure
oracle keyed by directory path.  `Option` marks the calls whose Rust
counterpart returns `Result` (failure = `none`). -/
structure ScanEnv where
  /-- `GitAdapter::is_git_repository` (`Repository::open(path).is_ok()`). -/
  isGitRepository : DirPath → Bool
  /-- Raw git2 state behind `GitAdapter::get_status`; `none` = the call fails. -/
  rawRepoState : DirPath → Option RawRepoState
  /-- `GitAdapter::get_remotes`; `none` = the call fails. -/
  remotesResult : DirPath → Option (List RemoteInfo)
  /-- `FilesystemAdapter::calculate_directory_size` in MB; `none` = failure. -/
  sizeMbResult : DirPath → Option Rat
  /-- `TokeiAdapter::analyze_languages`: primary language and line counts. -/
  tokeiResult : DirPath → Option String × Nat × Nat
  /-- `FilesystemAdapter::get_last_activity`, already collapsed to `Option`
  as by `unwrap_or(None)`. -/
  lastActivity : DirPath → Option Nat
  /-- The entries yielded by the ignore-aware walker for a given root. -/
  walker : DirPath → List DirPath
  /-- `FilesystemAdapter::is_directory`. -/
  isDirectory : DirPath → Bool
  /-- `FilesystemAdapter::file_exists dir filename`. -/
  fileExists : DirPath → String → Bool

/-- Model of `FilesystemAdapter::has_project_indicators`: any marker file exists. -/
def has_project_indicators (env : ScanEnv) (dir_path : DirPath) : Bool :=
  project_files.any (fun file => env.fileExists dir_path file)

/-- Model of `RepositoryService::is_inside_git_repo`: walk ancestors from the parent
of `path` upwards; stop (false) on reaching `base_path`, return true on the
first ancestor that is a git repository. -/
def is_inside_git_repo (g : DirPath → Bool) : DirPath → DirPath → Bool
  | [], _ => false
  | a :: as, base_path =>
    let parent := (a :: as).dropLast
    if parent = base_path then false
    else if g parent then true
    else is_inside_git_repo g parent base_path
termination_by p _ => p.length
decreasing_by simp

/-- Model of `RepositoryService::analyze_directory`: assemble the `Repository` entity
for one directory.  Failures of adapter calls degrade the affected field:
size defaults to 0, a failed status fetch yields `has_uncommitted_changes =
false` and `status = Clean`, failed remotes yield `[]`. -/
def analyze_directory (env : ScanEnv) (dir_path : DirPath) : Repository :=
  let name := dir_path.getLast?.getD "unknown"
  let size_mb := (env.sizeMbResult dir_path).getD 0
  let lang :=
    if 10 < size_mb ∧ env.isGitRepository dir_path = false
    then ((some "Mixed" : Option String), (0 : Nat), (0 : Nat))
    else env.tokeiResult dir_path
  if env.isGitRepository dir_path then
    let git_status := (env.rawRepoState dir_path).map get_status
    let remotes := ((env.remotesResult dir_path).getD []).map
      (fun r => r.name ++ ": " ++ r.url)
    let has_uncommitted_changes :=
      (git_status.map (fun s => !s.is_clean)).getD false
    let current_branch := git_status.bind (fun s => s.current_branch)
    let status :=
      if has_uncommitted_changes then
        if (git_status.map (fun s =>
              !s.unstaged_files.isEmpty || !s.staged_files.isEmpty)).getD false
        then RepoStatus.Dirty else RepoStatus.Untracked
      else RepoStatus.Clean
    { name := name, path := dir_path, is_git_repo := true,
      has_uncommitted_changes := has_uncommitted_changes,
      current_branch := current_branch, remotes := remotes,
      last_commit_date := none, last_activity := env.lastActivity dir_path,
      status := status, size_mb := size_mb, commit_count := none,
      primary_language := lang.1, total_lines := lang.2.1,
      code_lines := lang.2.2 }
  else
    { name := name, path := dir_path, is_git_repo := false,
      has_uncommitted_changes := false, current_branch := none, remotes := [],
      last_commit_date := none, last_activity := env.lastActivity dir_path,
      status := RepoStatus.NoGit, size_mb := size_mb, commit_count := none,
      primary_language := lang.1, total_lines := lang.2.1,
      code_lines := lang.2.2 }

/-- The candidate list built by the first pass of
`scan_directory_with_progress`: walker entries that are directories, are not
nested inside a git repository strictly below the base, and survive the
directory filter. -/
def dirs_to_scan (env : ScanEnv) (base_path : DirPath) : List DirPath :=
  (env.walker base_path).filter (fun path =>
    env.isDirectory path &&
    !(decide (path ≠ base_path) &&
        is_inside_git_repo env.isGitRepository path base_path) &&
    !should_skip_directory path)

/-- The relevance-filter drop condition of the second pass: not a repository,
fewer than 10 code lines, and no project-indicator file. -/
def relevance_drop (env : ScanEnv) (dir_path : DirPath) : Bool :=
  let repo := analyze_directory env dir_path
  !repo.is_git_repo && decide (repo.code_lines < 10) &&
    !has_project_indicators env dir_path

/-- Model of `RepositoryService::scan_directory_with_progress`: short-circuit when the
base is itself a git repository; otherwise enumerate, classify, apply the
relevance filter, and sort by name (stable). -/
def scan_directory_with_progress (env : ScanEnv) (base_path : DirPath) :
    List Repository :=
  if env.isGitRepository base_path then
    [analyze_directory env base_path]
  else
    ((dirs_to_scan env base_path).filterMap (fun dir_path =>
        if relevance_drop env dir_path then none
        else some (analyze_directory env dir_path))).mergeSort
      (fun a b => decide (a.name ≤ b.name))

/-! ## Concrete environments used to exercise the model. -/

/-- A minimal environment: every adapter call degrades, the walker yields
nothing, and every path is (or is not) a git repository uniformly. -/
def trivialScanEnv (git : Bool) : ScanEnv where
  isGitRepository := fun _ => git
  rawRepoState := fun _ => none
  remotesResult := fun _ => none
  sizeMbResult := fun _ => none
  tokeiResult := fun _ => (none, 0, 0)
  lastActivity := fun _ => none
  walker := fun _ => []
  isDirectory := fun _ => true
  fileExists := fun _ _ => false

/-- An environment whose walker yields one plain subdirectory of `["w"]`. -/
def envOneDir : ScanEnv :=
  { trivialScanEnv false with walker := fun _ => [["w", "proj"]] }

/-- A raw git2 state with a single staged (index-new) file. -/
def rawStagedOnly : RawRepoState where
  entries := [{ path := "f.txt", index_new := true, index_modified := false,
                index_deleted := false, index_renamed := false,
                index_typechange := false, wt_modified := false,
                wt_deleted := false, wt_renamed := false,
                wt_typechange := false, wt_new := false }]
  current_branch := some "main"
  tracking_branch := none

/-- An environment in which every directory is a git repository whose status
fetch succeeds with one staged file. -/
def envStagedRepo : ScanEnv :=
  { trivialScanEnv true with rawRepoState := fun _ => some rawStagedOnly }

/-- A concrete clean git repository entity at `/w/a`. -/
def repoA : Repository where
  name := "a"
  path := ["w", "a"]
  is_git_repo := true
  has_uncommitted_changes := false
  current_branch := some "main"
  remotes := ["origin: url"]
  last_commit_date := none
  last_activity := none
  status := RepoStatus.Clean
  size_mb := 0
  commit_count := none
  primary_language := none
  total_lines := 0
  code_lines := 0

/-- A concrete non-git directory entity at `/w/b`. -/
def repoB : Repository where
  name := "b"
  path := ["w", "b"]
  is_git_repo := false
  has_uncommitted_changes := false
  current_branch := none
  remotes := []
  last_commit_date := none
  last_activity := none
  status := RepoStatus.NoGit
  size_mb := 0
  commit_count := none
  primary_language := none
  total_lines := 0
  code_lines := 0

/-- A cached entry for `repoA` with checksum `"sha1"`. -/
def cachedRepoA : CachedRepository where
  repository := repoA
  cached_at := 0
  git_head_sha := some "sha1"
  last_modified := none
  is_stale := false

/-- A cache record holding exactly `repoA` under checksum `"sha1"`. -/
def sampleCacheData : CacheData where
  version := CACHE_VERSION
  last_scan := 0
  scanned_paths := [["w"]]
  repositories := [(["w", "a"], cachedRepoA)]
  checksums := [(["w", "a"], "sha1")]
  total_repos := 1
  total_git_repos := 1
  total_size_mb := 0

/-- A serde oracle that rejects every input, as on corrupt JSON. -/
def parseAlwaysFails : String → Except String CacheData :=
  fun _ => Except.error "invalid JSON"

/-- A serde oracle that parses every input to `sampleCacheData`. -/
def parseConst : String → Except String CacheData :=
  fun _ => Except.ok sampleCacheData

/-- A save in which the cache file exists and the backup copy fails while
both later filesystem calls would succeed. -/
def envBackupFail : SaveEnv where
  cacheFileExists := true
  backupResult := Except.error "copy failed"
  writeResult := Except.ok ()
  cleanupResult := Except.ok ()

/-- One concrete history backup file. -/
def sampleHistFile : HistFile where
  name := "repositories_20250101_000000.json"
  ext := some "json"
  mtime := some 1

/-! ## Supporting lemmas about the scan model. -/

theorem lookupKey_eq_some_mem {α β : Type} [DecidableEq α] {k : α} {v : β} :
    ∀ {l : List (α × β)}, lookupKey k l = some v → (k, v) ∈ l := by
  intro l
  induction l with
  | nil => intro h; simp [lookupKey] at h
  | cons e l ih =>
    intro h
    by_cases he : e.1 = k
    · simp [lookupKey, he] at h
      have : (k, v) = e := by cases e; simp_all
      exact this ▸ List.mem_cons_self _ _
    · simp [lookupKey, he] at h
      exact List.mem_cons_of_mem _ (ih h)

theorem mem_lookupKey_of_nodup {α β : Type} [DecidableEq α] {k : α} {v : β} :
    ∀ {l : List (α × β)}, (l.map Prod.fst).Nodup → (k, v) ∈ l →
      lookupKey k l = some v := by
  intro l
  induction l with
  | nil => intro _ h; simp at h
  | cons e l ih =>
    intro hnd hm
    rcases List.mem_cons.mp hm with h | h
    · subst h; simp [lookupKey]
    · have hk : k ∈ l.map Prod.fst := List.mem_map.mpr ⟨(k, v), h, rfl⟩
      have hne : e.1 ≠ k := by
        intro he
        have := (List.nodup_cons.mp hnd).1
        exact this (he ▸ hk)
      simp [lookupKey, hne]
      exact ih (List.nodup_cons.mp hnd).2 h

theorem lookupKey_isSome_iff {α β : Type} [DecidableEq α] {k : α} :
    ∀ {l : List (α × β)}, (lookupKey k l).isSome = true ↔ k ∈ l.map Prod.fst := by
  intro l
  induction l with
  | nil => simp [lookupKey]
  | cons e l ih =>
    by_cases he : e.1 = k
    · simp [lookupKey, he]
    · simp [lookupKey, he, ih, Ne.symm he]

theorem lookupKey_eq_none_iff {α β : Type} [DecidableEq α] {k : α}
    {l : List (α × β)} : lookupKey k l = none ↔ k ∉ l.map Prod.fst := by
  rw [← lookupKey_isSome_iff (k := k) (l := l)]
  cases lookupKey k l <;> simp

theorem analyze_directory_path (env : ScanEnv) (p : DirPath) :
    (analyze_directory env p).path = p := by
  unfold analyze_directory
  split <;> rfl

theorem mem_dirs_to_scan {env : ScanEnv} {base_path d : DirPath} :
    d ∈ dirs_to_scan env base_path ↔
      d ∈ env.walker base_path ∧ env.isDirectory d = true ∧
        ¬(d ≠ base_path ∧
            is_inside_git_repo env.isGitRepository d base_path = true) ∧
        should_skip_directory d = false := by
  simp [dirs_to_scan, List.mem_filter, and_assoc, Decidable.not_not]
  tauto

theorem mem_scan_iff {env : ScanEnv} {base_path : DirPath}
    (h : env.isGitRepository base_path = false) (r : Repository) :
    r ∈ scan_directory_with_progress env base_path ↔
      ∃ d ∈ dirs_to_scan env base_path,
        relevance_drop env d = false ∧ analyze_directory env d = r := by
  rw [scan_directory_with_progress, if_neg (by simp [h])]
  rw [List.mem_mergeSort, List.mem_filterMap]
  constructor
  · rintro ⟨d, hd, hsome⟩
    by_cases hdrop : relevance_drop env d
    · simp [hdrop] at hsome
    · simp only [Bool.not_eq_true] at hdrop
      simp [hdrop] at hsome
      exact ⟨d, hd, hdrop, hsome⟩
  · rintro ⟨d, hd, hdrop, hr⟩
    exact ⟨d, hd, by simp [hdrop, hr]⟩

theorem proper_prefix_dropLast {q p : DirPath} (hpre : q <+: p)
    (hne : q ≠ p) : q <+: p.dropLast := by
  obtain ⟨t, rfl⟩ := hpre
  cases t with
  | nil => simp at hne
  | cons b t2 =>
    rw [List.dropLast_append_cons]
    exact ⟨(b :: t2).dropLast, rfl⟩

theorem inside_of_git_between (g : DirPath → Bool) (base_path q : DirPath)
    (p : DirPath) (hpre : q <+: p) (hne : q ≠ p) (hg : g q = true)
    (hlen : base_path.length < q.length) :
    is_inside_git_repo g p base_path = true := by
  match p with
  | [] =>
    exact absurd (List.prefix_nil.mp hpre) hne
  | a :: as =>
    rw [is_inside_git_repo]
    have hqparent : q <+: (a :: as).dropLast := proper_prefix_dropLast hpre hne
    have hqlen : q.length ≤ (a :: as).dropLast.length :=
      hqparent.length_le
    have hparent_ne : (a :: as).dropLast ≠ base_path := by
      intro hb
      have : (a :: as).dropLast.length = base_path.length := by rw [hb]
      omega
    rw [if_neg hparent_ne]
    by_cases hgp : g ((a :: as).dropLast) = true
    · simp [hgp]
    · rw [if_neg hgp]
      have hqne : q ≠ (a :: as).dropLast := by
        intro he
        exact hgp (he ▸ hg)
      exact inside_of_git_between g base_path q ((a :: as).dropLast)
        hqparent hqne hg hlen
termination_by p.length
decreasing_by simp

/-! ## C8: root short-circuit. -/

/-- C8: when the scan root is itself a repository root, the orchestrator
classifies only the root and returns the single-element result containing
exactly that root's entity, enumerating no subdirectories. -/
theorem scan_root_short_circuit (env : ScanEnv) (base_path : DirPath)
    (h : env.isGitRepository base_path = true) :
    scan_directory_with_progress env base_path =
      [analyze_directory env base_path] ∧
    (analyze_directory env base_path).path = base_path := by
  constructor
  · rw [scan_directory_with_progress, if_pos h]
  · exact analyze_directory_path env base_path

/-- Witness for C8 at a concrete environment whose root is a repository. -/
theorem scan_root_short_circuit_witness :
    (trivialScanEnv true).isGitRepository ["w"] = true ∧
    (scan_directory_with_progress (trivialScanEnv true) ["w"] =
        [analyze_directory (trivialScanEnv true) ["w"]] ∧
      (analyze_directory (trivialScanEnv true) ["w"]).path = ["w"]) :=
  ⟨rfl, scan_root_short_circuit (trivialScanEnv true) ["w"] rfl⟩

/-! ## C4: boundary exclusivity. -/

/-- C4: in any scan result produced from a walker that only yields paths at
or below the base, if a result entity `r` is a repository root then no other
result entity lies strictly below it: a prefix relation between result paths
with `r` a repository root forces the paths to be equal. -/
theorem scan_boundary_exclusivity (env : ScanEnv) (base_path : DirPath)
    (hw : ∀ p ∈ env.walker base_path, base_path <+: p)
    (r s : Repository)
    (hr : r ∈ scan_directory_with_progress env base_path)
    (hs : s ∈ scan_directory_with_progress env base_path)
    (hgit : env.isGitRepository r.path = true)
    (hpre : r.path <+: s.path) :
    r.path = s.path := by
  by_cases hb : env.isGitRepository base_path = true
  · rw [scan_directory_with_progress, if_pos hb, List.mem_singleton] at hr hs
    rw [hr, hs]
  · have hbf : env.isGitRepository base_path = false := by
      simpa using hb
    obtain ⟨dr, hdr, _, har⟩ := (mem_scan_iff hbf r).mp hr
    obtain ⟨ds, hds, _, has⟩ := (mem_scan_iff hbf s).mp hs
    have hrp : r.path = dr := by rw [← har, analyze_directory_path]
    have hsp : s.path = ds := by rw [← has, analyze_directory_path]
    have hdr2 : r.path ∈ dirs_to_scan env base_path := by rw [hrp]; exact hdr
    have hds2 : s.path ∈ dirs_to_scan env base_path := by rw [hsp]; exact hds
    have hwr : base_path <+: r.path := hw _ (mem_dirs_to_scan.mp hdr2).1
    have hws : base_path <+: s.path := hw _ (mem_dirs_to_scan.mp hds2).1
    by_cases hsb : s.path = base_path
    · have h1 : r.path <+: base_path := hsb ▸ hpre
      have h2 := h1.length_le
      have h3 := hwr.length_le
      have heq : base_path = r.path := hwr.eq_of_length (by omega)
      rw [← heq, hsb]
    · by_cases heq : r.path = s.path
      · exact heq
      · exfalso
        have hcond := (mem_dirs_to_scan.mp hds2).2.2.1
        have hins :
            is_inside_git_repo env.isGitRepository s.path base_path = false := by
          by_contra hc
          exact hcond ⟨hsb, by simpa using hc⟩
        have hrb : r.path ≠ base_path := by
          intro h
          rw [h, hbf] at hgit
          cases hgit
        have hlen : base_path.length < r.path.length := by
          rcases Nat.eq_or_lt_of_le hwr.length_le with he | hlt
          · exact absurd (hwr.eq_of_length he).symm hrb
          · exact hlt
        have := inside_of_git_between env.isGitRepository base_path r.path
          s.path hpre heq hgit hlen
        rw [hins] at this
        cases this

/-- Witness for C4: a concrete scan whose result contains a repository root;
the exclusivity theorem applied to it (with the entity compared to itself)
yields the path equality. -/
theorem scan_boundary_exclusivity_witness :
    ((∀ p ∈ (trivialScanEnv true).walker ["w"], ["w"] <+: p) ∧
      analyze_directory (trivialScanEnv true) ["w"] ∈
        scan_directory_with_progress (trivialScanEnv true) ["w"] ∧
      (trivialScanEnv true).isGitRepository
          (analyze_directory (trivialScanEnv true) ["w"]).path = true ∧
      (analyze_directory (trivialScanEnv true) ["w"]).path <+:
        (analyze_directory (trivialScanEnv true) ["w"]).path) ∧
    (analyze_directory (trivialScanEnv true) ["w"]).path =
      (analyze_directory (trivialScanEnv true) ["w"]).path := by
  have hw : ∀ p ∈ (trivialScanEnv true).walker ["w"], ["w"] <+: p := by
    intro p hp
    simp [trivialScanEnv] at hp
  have hroot : (trivialScanEnv true).isGitRepository ["w"] = true := rfl
  have hmem : analyze_directory (trivialScanEnv true) ["w"] ∈
      scan_directory_with_progress (trivialScanEnv true) ["w"] := by
    rw [scan_directory_with_progress, if_pos hroot]
    exact List.mem_singleton_self _
  have hgit : (trivialScanEnv true).isGitRepository
      (analyze_directory (trivialScanEnv true) ["w"]).path = true := by
    rw [analyze_directory_path]
    exact hroot
  exact ⟨⟨hw, hmem, hgit, List.prefix_rfl⟩,
    scan_boundary_exclusivity (trivialScanEnv true) ["w"] hw _ _ hmem hmem
      hgit List.prefix_rfl⟩

/-! ## C6: relevance filter. -/

/-- C6: a classified candidate directory is dropped from the final scan
result exactly when it is not a repository, its code-line count is below 10,
and it has none of the fixed project-indicator marker files. -/
theorem scan_relevance_filter (env : ScanEnv) (base_path dir_path : DirPath)
    (hroot : env.isGitRepository base_path = false)
    (hp : dir_path ∈ dirs_to_scan env base_path) :
    (analyze_directory env dir_path ∉
        scan_directory_with_progress env base_path) ↔
      ((analyze_directory env dir_path).is_git_repo = false ∧
        (analyze_directory env dir_path).code_lines < 10 ∧
        has_project_indicators env dir_path = false) := by
  have hmem : analyze_directory env dir_path ∈
      scan_directory_with_progress env base_path ↔
      relevance_drop env dir_path = false := by
    rw [mem_scan_iff hroot]
    constructor
    · rintro ⟨d, hd, hdrop, heq⟩
      have hdp : d = dir_path := by
        have h1 := analyze_directory_path env d
        have h2 := analyze_directory_path env dir_path
        rw [← h1, heq, h2]
      exact hdp ▸ hdrop
    · intro hdrop
      exact ⟨dir_path, hp, hdrop, rfl⟩
  have hdropiff : relevance_drop env dir_path = true ↔
      ((analyze_directory env dir_path).is_git_repo = false ∧
        (analyze_directory env dir_path).code_lines < 10 ∧
        has_project_indicators env dir_path = false) := by
    simp [relevance_drop, and_assoc]
  constructor
  · intro hnot
    apply hdropiff.mp
    cases h : relevance_drop env dir_path
    · exact absurd (hmem.mpr h) hnot
    · rfl
  · intro hrhs hmem2
    have h1 := hmem.mp hmem2
    rw [hdropiff.mpr hrhs] at h1
    cases h1

/-- Witness for C6: one plain candidate subdirectory with zero code lines and
no markers; the filter drops it. -/
theorem scan_relevance_filter_witness :
    (envOneDir.isGitRepository ["w"] = false ∧
      ["w", "proj"] ∈ dirs_to_scan envOneDir ["w"]) ∧
    ((analyze_directory envOneDir ["w", "proj"] ∉
        scan_directory_with_progress envOneDir ["w"]) ↔
      ((analyze_directory envOneDir ["w", "proj"]).is_git_repo = false ∧
        (analyze_directory envOneDir ["w", "proj"]).code_lines < 10 ∧
        has_project_indicators envOneDir ["w", "proj"] = false)) := by
  have hp : ["w", "proj"] ∈ dirs_to_scan envOneDir ["w"] := by
    rw [mem_dirs_to_scan]
    refine ⟨by simp [envOneDir, trivialScanEnv], rfl, ?_, by decide⟩
    rintro ⟨-, hin⟩
    rw [is_inside_git_repo] at hin
    simp at hin
  exact ⟨⟨rfl, hp⟩,
    scan_relevance_filter envOneDir ["w"] ["w", "proj"] rfl hp⟩

/-! ## C7: status state machine. -/

/-- The `is_clean` of a computed status is the conjunction of the three
emptiness tests, by definition of `get_status`. -/
theorem get_status_is_clean (raw : RawRepoState) :
    (get_status raw).is_clean =
      ((get_status raw).staged_files.isEmpty &&
       (get_status raw).unstaged_files.isEmpty &&
       (get_status raw).untracked_files.isEmpty) := rfl

/-- C7: a classified directory has status `NoGit` exactly when it is not a
git repository; and for a git repository whose status fetch succeeds, the
status is `Dirty` exactly when uncommitted changes exist with at least one
staged or unstaged file, `Untracked` exactly when uncommitted changes exist
only via untracked files, and `Clean` exactly when no uncommitted changes
exist. -/
theorem classify_status_machine (env : ScanEnv) (p : DirPath) :
    ((analyze_directory env p).status = RepoStatus.NoGit ↔
      env.isGitRepository p = false) ∧
    (∀ raw : RawRepoState, env.isGitRepository p = true →
      env.rawRepoState p = some raw →
      (((analyze_directory env p).status = RepoStatus.Dirty ↔
          (get_status raw).is_clean = false ∧
            ((get_status raw).staged_files ≠ [] ∨
             (get_status raw).unstaged_files ≠ [])) ∧
        ((analyze_directory env p).status = RepoStatus.Untracked ↔
          (get_status raw).is_clean = false ∧
            (get_status raw).staged_files = [] ∧
            (get_status raw).unstaged_files = [] ∧
            (get_status raw).untracked_files ≠ []) ∧
        ((analyze_directory env p).status = RepoStatus.Clean ↔
          (get_status raw).is_clean = true))) := by
  constructor
  · by_cases hg : env.isGitRepository p = true
    · have hne : (analyze_directory env p).status ≠ RepoStatus.NoGit := by
        simp only [analyze_directory, hg, if_true]
        split
        · split <;> simp
        · simp
      simp [hne, hg]
    · have hgf : env.isGitRepository p = false := by simpa using hg
      simp [analyze_directory, hgf]
  · intro raw hg hraw
    cases hclean : (get_status raw).is_clean with
    | true =>
      have hstat : (analyze_directory env p).status = RepoStatus.Clean := by
        simp [analyze_directory, hg, hraw, hclean]
      refine ⟨?_, ?_, ?_⟩ <;> simp [hstat, hclean]
    | false =>
      have hnotall : ¬((get_status raw).staged_files = [] ∧
          (get_status raw).unstaged_files = [] ∧
          (get_status raw).untracked_files = []) := by
        intro ⟨h1, h2, h3⟩
        have h4 := get_status_is_clean raw
        rw [hclean, h1, h2, h3] at h4
        simp at h4
      by_cases hst : (get_status raw).staged_files = []
      · by_cases hun : (get_status raw).unstaged_files = []
        · have hunt : (get_status raw).untracked_files ≠ [] := by
            intro h3
            exact hnotall ⟨hst, hun, h3⟩
          have hstat : (analyze_directory env p).status =
              RepoStatus.Untracked := by
            simp [analyze_directory, hg, hraw, hclean, hst, hun]
          refine ⟨?_, ?_, ?_⟩ <;> simp [hstat, hclean, hst, hun, hunt]
        · have hstat : (analyze_directory env p).status = RepoStatus.Dirty := by
            simp [analyze_directory, hg, hraw, hclean, hun]
          refine ⟨?_, ?_, ?_⟩ <;> simp [hstat, hclean, hun]
      · have hstat : (analyze_directory env p).status = RepoStatus.Dirty := by
          simp [analyze_directory, hg, hraw, hclean, hst]
        refine ⟨?_, ?_, ?_⟩ <;> simp [hstat, hclean, hst]

/-- Witness for C7: a repository with one staged file is classified `Dirty`. -/
theorem classify_status_machine_witness :
    (envStagedRepo.isGitRepository ["w"] = true ∧
      envStagedRepo.rawRepoState ["w"] = some rawStagedOnly) ∧
    ((analyze_directory envStagedRepo ["w"]).status = RepoStatus.Dirty ↔
      (get_status rawStagedOnly).is_clean = false ∧
        ((get_status rawStagedOnly).staged_files ≠ [] ∨
         (get_status rawStagedOnly).unstaged_files ≠ [])) :=
  ⟨⟨rfl, rfl⟩,
    ((classify_status_machine envStagedRepo ["w"]).2 rawStagedOnly rfl rfl).1⟩

/-! ## C10: degraded classification on status-fetch failure. -/

/-- C10: for a git repository whose status fetch fails, classification does
not fail: the entity stays a git repository but reports
`has_uncommitted_changes = false` and `status = Clean`, indistinguishable
from a genuinely clean repository. -/
theorem classify_status_fetch_failure (env : ScanEnv) (p : DirPath)
    (hg : env.isGitRepository p = true)
    (hf : env.rawRepoState p = none) :
    (analyze_directory env p).is_git_repo = true ∧
    (analyze_directory env p).has_uncommitted_changes = false ∧
    (analyze_directory env p).status = RepoStatus.Clean := by
  refine ⟨?_, ?_, ?_⟩ <;> simp [analyze_directory, hg, hf]

/-- Witness for C10: the environment whose status fetch always fails. -/
theorem classify_status_fetch_failure_witness :
    ((trivialScanEnv true).isGitRepository ["w"] = true ∧
      (trivialScanEnv true).rawRepoState ["w"] = none) ∧
    ((analyze_directory (trivialScanEnv true) ["w"]).is_git_repo = true ∧
      (analyze_directory (trivialScanEnv true) ["w"]).has_uncommitted_changes
        = false ∧
      (analyze_directory (trivialScanEnv true) ["w"]).status =
        RepoStatus.Clean) :=
  ⟨⟨rfl, rfl⟩, classify_status_fetch_failure (trivialScanEnv true) ["w"] rfl rfl⟩

/-! ## C2: backup failure during save. -/

/-- Counterexample to the claim that a failed backup copy still lets the save
write the new primary record and report success: with an existing cache file
and a failing backup copy, `save_cache` returns the backup error and the
primary write is never attempted. -/
theorem save_cache_backup_failure_cex :
    save_cache envBackupFail = (Except.error "copy failed", [FsOp.backup]) ∧
    FsOp.writePrimary ∉ [FsOp.backup] :=
  ⟨rfl, by decide⟩

/-- C2 (amended): a backup-copy failure during save aborts the save — the
failure is returned as the save's error and the primary record is not
written. -/
theorem save_cache_backup_failure_blocks (env : SaveEnv) (e : String)
    (hex : env.cacheFileExists = true)
    (hb : env.backupResult = Except.error e) :
    save_cache env = (Except.error e, [FsOp.backup]) ∧
    FsOp.writePrimary ∉ (save_cache env).2 := by
  have h : save_cache env = (Except.error e, [FsOp.backup]) := by
    rw [save_cache, hb, hex]
    simp
  refine ⟨h, ?_⟩
  rw [h]
  simp

/-- Witness for the amended C2 at the concrete failing save. -/
theorem save_cache_backup_failure_blocks_witness :
    (envBackupFail.cacheFileExists = true ∧
      envBackupFail.backupResult = Except.error "copy failed") ∧
    (save_cache envBackupFail = (Except.error "copy failed", [FsOp.backup]) ∧
      FsOp.writePrimary ∉ (save_cache envBackupFail).2) :=
  ⟨⟨rfl, rfl⟩,
    save_cache_backup_failure_blocks envBackupFail "copy failed" rfl rfl⟩

/-! ## C3: load-time failure handling. -/

/-- Counterexample to the claim that `load_cache` returns `None` on corrupt
or unreadable content: both surface as errors. -/
theorem load_cache_corrupt_cex :
    load_cache parseAlwaysFails (CacheFileState.content "not json") =
      Except.error "invalid JSON" ∧
    load_cache parseAlwaysFails (CacheFileState.content "not json") ≠
      Except.ok none ∧
    load_cache parseAlwaysFails (CacheFileState.unreadable "permission denied")
      = Except.error "permission denied" := by
  refine ⟨rfl, ?_, rfl⟩
  intro h
  simp [load_cache, parseAlwaysFails] at h

/-- C3 (amended): `load_cache` returns `None` when the file is absent and on
a version mismatch, returns the record on a version match, and propagates
read errors and parse errors as errors. -/
theorem load_cache_spec (parse : String → Except String CacheData) :
    (load_cache parse CacheFileState.absent = Except.ok none) ∧
    (∀ err, load_cache parse (CacheFileState.unreadable err) =
      Except.error err) ∧
    (∀ s e, parse s = Except.error e →
      load_cache parse (CacheFileState.content s) = Except.error e) ∧
    (∀ s cache_data, parse s = Except.ok cache_data →
      cache_data.version ≠ CACHE_VERSION →
      load_cache parse (CacheFileState.content s) = Except.ok none) ∧
    (∀ s cache_data, parse s = Except.ok cache_data →
      cache_data.version = CACHE_VERSION →
      load_cache parse (CacheFileState.content s) =
        Except.ok (some cache_data)) := by
  refine ⟨rfl, fun err => rfl, ?_, ?_, ?_⟩
  · intro s e h1
    simp [load_cache, h1]
  · intro s cache_data h1 h2
    simp [load_cache, h1, h2]
  · intro s cache_data h1 h2
    simp [load_cache, h1, h2]

/-- Witness for the amended C3: a matching-version record loads as `some`. -/
theorem load_cache_spec_witness :
    (parseConst "x" = Except.ok sampleCacheData ∧
      sampleCacheData.version = CACHE_VERSION) ∧
    load_cache parseConst (CacheFileState.content "x") =
      Except.ok (some sampleCacheData) :=
  ⟨⟨rfl, rfl⟩,
    (load_cache_spec parseConst).2.2.2.2 "x" sampleCacheData rfl rfl⟩

/-! ## C1: staleness totality. -/

/-- Characterisation of the first-loop staleness test on one cached entry. -/
theorem staleCheck_eq_some_iff (cur : List (DirPath × String))
    (e : DirPath × CachedRepository) (q : DirPath) :
    staleCheck cur e = some q ↔
      q = e.1 ∧
        ((∃ cc c, e.2.git_head_sha = some cc ∧ lookupKey e.1 cur = some c ∧
            cc ≠ c) ∨
          (e.2.git_head_sha = none ∧ (lookupKey e.1 cur).isSome = true) ∨
          lookupKey e.1 cur = none) := by
  unfold staleCheck
  cases hl : lookupKey e.1 cur with
  | none => simp [hl, eq_comm]
  | some c =>
    cases hsha : e.2.git_head_sha with
    | none => simp [hsha, eq_comm]
    | some cc =>
      by_cases hne : cc = c
      · subst hne
        simp
      · simp [hne, eq_comm]
        intro _ h
        exact hne h.symm

/-- C1: `find_stale_repositories` returns exactly the paths that are cached
with a changed checksum, cached with no checksum but present in the fresh
set, cached but absent from the fresh set, or fresh but not cached. -/
theorem find_stale_repositories_spec (cache_data : CacheData)
    (current_checksums : List (DirPath × String)) (p : DirPath)
    (hr : (cache_data.repositories.map Prod.fst).Nodup) :
    p ∈ find_stale_repositories cache_data current_checksums ↔
      (∃ cr, lookupKey p cache_data.repositories = some cr ∧
        ((∃ cc c, cr.git_head_sha = some cc ∧
            lookupKey p current_checksums = some c ∧ cc ≠ c) ∨
          (cr.git_head_sha = none ∧
            (lookupKey p current_checksums).isSome = true) ∨
          lookupKey p current_checksums = none)) ∨
      ((lookupKey p current_checksums).isSome = true ∧
        lookupKey p cache_data.repositories = none) := by
  rw [find_stale_repositories, List.mem_append, List.mem_filterMap,
    List.mem_filterMap]
  constructor
  · rintro (⟨e, he, hsc⟩ | ⟨e, he, hif⟩)
    · obtain ⟨hq, hcond⟩ := (staleCheck_eq_some_iff _ _ _).mp hsc
      left
      refine ⟨e.2, ?_, ?_⟩
      · rw [hq]
        exact mem_lookupKey_of_nodup hr (by rw [Prod.mk.eta]; exact he)
      · rw [hq]
        exact hcond
    · have hsplit : (lookupKey e.1 cache_data.repositories).isNone = true ∧
          e.1 = p := by
        by_cases hn : (lookupKey e.1 cache_data.repositories).isNone = true
        · rw [if_pos hn] at hif
          exact ⟨hn, Option.some.inj hif⟩
        · rw [if_neg hn] at hif
          cases hif
      right
      constructor
      · rw [← hsplit.2]
        exact lookupKey_isSome_iff.mpr (List.mem_map.mpr ⟨e, he, rfl⟩)
      · rw [← hsplit.2]
        exact Option.isNone_iff_eq_none.mp hsplit.1
  · rintro (⟨cr, hlook, hcond⟩ | ⟨hsome, hnone⟩)
    · left
      refine ⟨(p, cr), lookupKey_eq_some_mem hlook, ?_⟩
      exact (staleCheck_eq_some_iff _ _ _).mpr ⟨rfl, hcond⟩
    · right
      obtain ⟨e, he, hep⟩ :=
        List.mem_map.mp (lookupKey_isSome_iff.mp hsome)
      refine ⟨e, he, ?_⟩
      rw [hep, hnone]
      simp

/-- Witness for C1: the spec's example scenario — cached checksum `"sha1"`,
fresh checksum `"sha2"` at the same path — makes the path stale. -/
theorem find_stale_repositories_spec_witness :
    (sampleCacheData.repositories.map Prod.fst).Nodup ∧
    (["w", "a"] ∈
        find_stale_repositories sampleCacheData [(["w", "a"], "sha2")] ↔
      (∃ cr, lookupKey ["w", "a"] sampleCacheData.repositories = some cr ∧
        ((∃ cc c, cr.git_head_sha = some cc ∧
            lookupKey ["w", "a"] [(["w", "a"], "sha2")] = some c ∧ cc ≠ c) ∨
          (cr.git_head_sha = none ∧
            (lookupKey ["w", "a"] [(["w", "a"], "sha2")]).isSome = true) ∨
          lookupKey ["w", "a"] [(["w", "a"], "sha2")] = none)) ∨
      ((lookupKey ["w", "a"] [(["w", "a"], "sha2")]).isSome = true ∧
        lookupKey ["w", "a"] sampleCacheData.repositories = none)) :=
  ⟨by decide,
    find_stale_repositories_spec sampleCacheData [(["w", "a"], "sha2")]
      ["w", "a"] (by decide)⟩

/-! ## C5: add-mode merge. -/

/-- Paths emitted by the incoming loop: those incoming paths not already in
the seen set. -/
theorem merge_add_loop_path_mem :
    ∀ (rs : List Repository) (seen : List DirPath) (q : DirPath),
      q ∈ (merge_add_loop seen rs).map (fun r => r.path) ↔
        q ∉ seen ∧ q ∈ rs.map (fun r => r.path) := by
  intro rs
  induction rs with
  | nil => intro seen q; simp [merge_add_loop]
  | cons r rs ih =>
    intro seen q
    by_cases hmem : r.path ∈ seen
    · rw [merge_add_loop, if_pos hmem, ih]
      simp only [List.map_cons, List.mem_cons]
      constructor
      · rintro ⟨h1, h2⟩
        exact ⟨h1, Or.inr h2⟩
      · rintro ⟨h1, h2 | h3⟩
        · exact absurd (h2 ▸ hmem) h1
        · exact ⟨h1, h3⟩
    · rw [merge_add_loop, if_neg hmem]
      simp only [List.map_cons, List.mem_cons]
      rw [ih]
      constructor
      · rintro (h | ⟨h1, h2⟩)
        · exact ⟨h ▸ hmem, Or.inl h⟩
        · exact ⟨fun hq => h1 (List.mem_cons_of_mem _ hq), Or.inr h2⟩
      · rintro ⟨h1, h | h2⟩
        · exact Or.inl h
        · by_cases hq : q = r.path
          · exact Or.inl hq
          · refine Or.inr ⟨?_, h2⟩
            intro hmem2
            rcases List.mem_cons.mp hmem2 with h3 | h3
            · exact hq h3
            · exact h1 h3

/-- The incoming loop never emits two entries with the same path. -/
theorem merge_add_loop_path_nodup :
    ∀ (rs : List Repository) (seen : List DirPath),
      ((merge_add_loop seen rs).map (fun r => r.path)).Nodup := by
  intro rs
  induction rs with
  | nil => intro seen; simp [merge_add_loop]
  | cons r rs ih =>
    intro seen
    by_cases hmem : r.path ∈ seen
    · rw [merge_add_loop, if_pos hmem]
      exact ih seen
    · rw [merge_add_loop, if_neg hmem]
      simp only [List.map_cons, List.nodup_cons]
      refine ⟨?_, ih _⟩
      intro hin
      exact ((merge_add_loop_path_mem rs (r.path :: seen) r.path).mp hin).1
        (List.mem_cons_self _ _)

/-- C5: in add mode the merged repositories contain exactly one entry per
path (the union of the existing and incoming path sets), an existing entry
always survives, any merged entry at an existing path is the existing entry
(incoming duplicates are dropped), and the merged scanned paths are the
union of the scan root and the existing scanned paths. -/
theorem merge_add_spec (existing incoming : List Repository)
    (scan_root : DirPath) (sp : List DirPath)
    (hnd : (existing.map (fun r => r.path)).Nodup) :
    ((merge_repositories_add existing incoming).map (fun r => r.path)).Nodup ∧
    (∀ q : DirPath,
      q ∈ (merge_repositories_add existing incoming).map (fun r => r.path) ↔
        q ∈ existing.map (fun r => r.path) ∨
          q ∈ incoming.map (fun r => r.path)) ∧
    (∀ r ∈ existing, r ∈ merge_repositories_add existing incoming) ∧
    (∀ r ∈ merge_repositories_add existing incoming,
      r.path ∈ existing.map (fun r => r.path) → r ∈ existing) ∧
    (∀ q, q ∈ merge_scanned_paths scan_root sp ↔ q = scan_root ∨ q ∈ sp) := by
  refine ⟨?_, ?_, ?_, ?_, ?_⟩
  · rw [merge_repositories_add, List.map_append, List.nodup_append]
    refine ⟨hnd, merge_add_loop_path_nodup _ _, ?_⟩
    intro q hq hq2
    exact ((merge_add_loop_path_mem _ _ q).mp hq2).1 hq
  · intro q
    rw [merge_repositories_add, List.map_append, List.mem_append,
      merge_add_loop_path_mem]
    constructor
    · rintro (h | ⟨h1, h2⟩)
      · exact Or.inl h
      · exact Or.inr h2
    · rintro (h | h)
      · exact Or.inl h
      · by_cases hq : q ∈ existing.map (fun r => r.path)
        · exact Or.inl hq
        · exact Or.inr ⟨hq, h⟩
  · intro r hr
    rw [merge_repositories_add]
    exact List.mem_append_left _ hr
  · intro r hr hpath
    rw [merge_repositories_add] at hr
    rcases List.mem_append.mp hr with h | h
    · exact h
    · exfalso
      have hmem : r.path ∈
          (merge_add_loop (existing.map (fun r => r.path)) incoming).map
            (fun r => r.path) :=
        List.mem_map.mpr ⟨r, h, rfl⟩
      exact ((merge_add_loop_path_mem _ _ _).mp hmem).1 hpath
  · intro q
    simp [merge_scanned_paths]

/-- Witness for C5: merging a one-repository cache with an incoming scan that
duplicates its path keeps path uniqueness. -/
theorem merge_add_spec_witness :
    ([repoA].map (fun r => r.path)).Nodup ∧
    ((merge_repositories_add [repoA] [repoA, repoB]).map
      (fun r => r.path)).Nodup :=
  ⟨by decide, (merge_add_spec [repoA] [repoA, repoB] ["w"] [] (by decide)).1⟩

/-! ## C9: history retention. -/

/-- The cleanup never keeps more than the cap of 10 files. -/
theorem cleanup_kept_length_le (files : List HistFile) :
    (cleanup_kept files).length ≤ 10 := by
  rw [cleanup_kept, List.length_take]
  omega

/-- The newest-first order produced by the cleanup is sorted by decreasing
modification time. -/
theorem cleanup_sorted_pairwise (files : List HistFile) :
    (cleanup_sorted files).Pairwise
      (fun a b => mtimeKey b ≤ mtimeKey a) := by
  rw [cleanup_sorted, List.pairwise_reverse]
  have h0 := @List.sorted_mergeSort HistFile
    (fun a b => decide (mtimeKey a ≤ mtimeKey b))
    (fun a b c h1 h2 => by
      simp only [decide_eq_true_eq] at h1 h2 ⊢
      omega)
    (fun a b => by
      simpa [Bool.or_eq_true, decide_eq_true_eq] using
        Nat.le_total (mtimeKey a) (mtimeKey b))
    (files.filter (fun f => f.ext == some "json"))
  exact h0.imp (fun h => by simpa using h)

/-- After at least one save, the history holds at most 10 backup files. -/
theorem save_backup_steps_length (ns : List HistFile) :
    ∀ (hist : List HistFile) (n : HistFile),
      ((n :: ns).foldl save_backup_step hist).length ≤ 10 := by
  induction ns with
  | nil =>
    intro hist n
    simpa [save_backup_step] using cleanup_kept_length_le (hist ++ [n])
  | cons m ms ih =>
    intro hist n
    rw [List.foldl_cons]
    exact ih (save_backup_step hist n) m

/-- C9: the kept files are at most 10; kept and removed together are exactly
the backup (`.json`) files; every removed file is at least as old as every
kept file (oldest-first eviction); and after any nonempty sequence of saves
the history holds at most 10 backup files. -/
theorem cleanup_retention_spec (files hist news : List HistFile)
    (hne : news ≠ []) :
    (cleanup_kept files).length ≤ 10 ∧
    (cleanup_kept files ++ cleanup_removed files).Perm
      (files.filter (fun f => f.ext == some "json")) ∧
    (∀ f ∈ cleanup_removed files, ∀ g ∈ cleanup_kept files,
      mtimeKey f ≤ mtimeKey g) ∧
    (news.foldl save_backup_step hist).length ≤ 10 := by
  have hperm : (cleanup_sorted files).Perm
      (files.filter (fun f => f.ext == some "json")) := by
    rw [cleanup_sorted]
    exact (List.reverse_perm _).trans (List.mergeSort_perm _ _)
  refine ⟨cleanup_kept_length_le files, ?_, ?_, ?_⟩
  · by_cases hlen : (cleanup_sorted files).length > 10
    · rw [cleanup_kept, cleanup_removed, if_pos hlen, List.take_append_drop]
      exact hperm
    · rw [cleanup_kept, cleanup_removed, if_neg hlen, List.append_nil,
        List.take_of_length_le (by omega)]
      exact hperm
  · intro f hf g hg
    by_cases hlen : (cleanup_sorted files).length > 10
    · rw [cleanup_removed, if_pos hlen] at hf
      rw [cleanup_kept] at hg
      have hsorted := cleanup_sorted_pairwise files
      rw [← List.take_append_drop 10 (cleanup_sorted files),
        List.pairwise_append] at hsorted
      exact hsorted.2.2 g hg f hf
    · rw [cleanup_removed, if_neg hlen] at hf
      cases hf
  · match news, hne with
    | n :: ns, _ => exact save_backup_steps_length ns hist n

/-- Witness for C9 at one concrete save into an empty history. -/
theorem cleanup_retention_spec_witness :
    ([sampleHistFile] ≠ ([] : List HistFile)) ∧
    ((cleanup_kept []).length ≤ 10 ∧
      (cleanup_kept [] ++ cleanup_removed []).Perm
        (List.filter (fun f => f.ext == some "json") []) ∧
      (∀ f ∈ cleanup_removed [], ∀ g ∈ cleanup_kept [],
        mtimeKey f ≤ mtimeKey g) ∧
      (([sampleHistFile].foldl save_backup_step []).length ≤ 10)) :=
  ⟨by simp, cleanup_retention_spec [] [] [sampleHistFile] (by simp)⟩
